import Mathlib

/-!
Shallow embedding of the trace-comparison and call-tree tools of the
kcore repository (`src/scripts/trace_compare.py`, `src/sim/trace_compare.py`,
`src/sim/parse_call_trace.py`), together with theorems settling the
specification claims about them.
-/

namespace Kcore

/-- One parsed trace record, as produced by `parse_rtl_trace` /
`parse_spike_trace` in `src/scripts/trace_compare.py`: the `pc` and `instr`
fields extracted from one trace line (the `cycle`/`line` fields are never
read by the comparison logic and are omitted). -/
structure TraceRec where
  pc : Nat
  instr : Nat
deriving DecidableEq, Repr

/-- Verdict classes of `compare_traces` (identified by which `print`/`return`
branch of `src/scripts/trace_compare.py` lines 86-136 is taken). -/
inductive Verdict where
  | emptyFail
  | alignFail
  | perfectMatch
  | partialShorter
  | partialLonger
  | mismatchFail
deriving DecidableEq, Repr

/-- The observable outcome of `compare_traces`: the branch taken (verdict),
the alignment offset found for the second stream, the final value of the
`mismatches` counter, the list of detailed mismatch entries printed
(index, record from stream 1, record from stream 2), the value
`len(traces1)`, the value `len(traces2) - trace2_offset`, and the return
value (process exit code). -/
structure CompareResult where
  verdict : Verdict
  offset : Nat
  mismatchCount : Nat
  detail : List (Nat × TraceRec × TraceRec)
  len1 : Nat
  len2eff : Nat
  exitCode : Nat
deriving DecidableEq, Repr

/-- A pair of records disagrees when pc or instr differ
(`t1['pc'] != t2['pc'] or t1['instr'] != t2['instr']`). -/
def recMismatch (p : TraceRec × TraceRec) : Bool :=
  p.1.pc ≠ p.2.pc ∨ p.1.instr ≠ p.2.instr

/-- The mismatch loop of `compare_traces` (lines 107-118): walk the compared
index range in order, incrementing the counter and printing a detail entry
at every mismatching pair, and `break` as soon as the counter reaches 10.
The iteration space `for i in range(max_compare)` over `traces1[i]` and
`traces2[i + trace2_offset]` is presented as the list
`traces1.zip (traces2.drop trace2_offset)` (same pairs, same order).
Returns the final counter and the printed detail entries. -/
def mismatchScan : List (TraceRec × TraceRec) → Nat → Nat →
    Nat × List (Nat × TraceRec × TraceRec)
  | [], _, m => (m, [])
  | p :: rest, i, m =>
    if recMismatch p then
      if m + 1 ≥ 10 then (m + 1, [(i, p)])
      else
        let r := mismatchScan rest (i + 1) (m + 1)
        (r.1, (i, p) :: r.2)
    else mismatchScan rest (i + 1) m

/-- The enumerate-and-break scan of `compare_traces` (lines 92-98): the
index of the first record whose pc equals the pivot, if any. -/
def findPc (pivot : Nat) : List TraceRec → Option Nat
  | [] => none
  | e :: rest =>
    if e.pc = pivot then some 0 else (findPc pivot rest).map (· + 1)

/-- The resulting `trace2_offset`: it stays at its initial value 0 when no
record matches the pivot pc. -/
def alignOffset (pivot : Nat) (t2 : List TraceRec) : Nat :=
  (findPc pivot t2).getD 0

/-- `compare_traces` of `src/scripts/trace_compare.py` (lines 80-136).
Printing is modelled by recording, in a `CompareResult`, every value the
function prints or returns. The source's guard
`len(traces1) == 0 or len(traces2) == 0` is rendered as the two empty-list
patterns. -/
def compare_traces : List TraceRec → List TraceRec → CompareResult
  | [], t2 =>
    { verdict := .emptyFail, offset := 0, mismatchCount := 0, detail := [],
      len1 := 0, len2eff := t2.length, exitCode := 1 }
  | t1, [] =>
    { verdict := .emptyFail, offset := 0, mismatchCount := 0, detail := [],
      len1 := t1.length, len2eff := 0, exitCode := 1 }
  | h1 :: r1, h2 :: r2 =>
    let t1 := h1 :: r1
    let t2 := h2 :: r2
    let off := alignOffset h1.pc t2
    if off = 0 ∧ h1.pc ≠ h2.pc then
      { verdict := .alignFail, offset := 0, mismatchCount := 0, detail := [],
        len1 := t1.length, len2eff := t2.length, exitCode := 1 }
    else
      let scan := mismatchScan (t1.zip (t2.drop off)) 0 0
      let m := scan.1
      let eff := t2.length - off
      if m = 0 then
        if t1.length = eff then
          { verdict := .perfectMatch, offset := off, mismatchCount := 0,
            detail := [], len1 := t1.length, len2eff := eff, exitCode := 0 }
        else if t1.length < eff then
          { verdict := .partialShorter, offset := off, mismatchCount := 0,
            detail := [], len1 := t1.length, len2eff := eff, exitCode := 0 }
        else
          { verdict := .partialLonger, offset := off, mismatchCount := 0,
            detail := [], len1 := t1.length, len2eff := eff, exitCode := 0 }
      else
        { verdict := .mismatchFail, offset := off, mismatchCount := m,
          detail := scan.2, len1 := t1.length, len2eff := eff, exitCode := 1 }

/-- The number of truly mismatching pairs over the common compared length —
the spec's "N true (pc,instr) mismatches"; used only to state claims, the
code never computes it. -/
def specTrueMismatchCount (t1 t2 : List TraceRec) (off : Nat) : Nat :=
  (t1.zip (t2.drop off)).countP recMismatch

/-- Three aligned streams zipped to their common compared length
(`for i in range(max_compare)` over the three indexed streams). -/
def zip3 : List TraceRec → List TraceRec → List TraceRec →
    List (TraceRec × TraceRec × TraceRec)
  | a :: as, b :: bs, c :: cs => (a, b, c) :: zip3 as bs cs
  | _, _, _ => []

/-- A three-way triple mismatches unless all three pcs and all three instrs
agree (`all_match` at lines 177-178 of `src/scripts/trace_compare.py`). -/
def tripleMismatch (p : TraceRec × TraceRec × TraceRec) : Bool :=
  ¬(p.1.pc = p.2.1.pc ∧ p.2.1.pc = p.2.2.pc ∧
    p.1.instr = p.2.1.instr ∧ p.2.1.instr = p.2.2.instr)

/-- The mismatch loop of `compare_three_way` (lines 172-188): same counting
and 10-cap `break` discipline as the two-way loop. -/
def mismatchScan3 : List (TraceRec × TraceRec × TraceRec) → Nat → Nat
  | [], m => m
  | p :: rest, m =>
    if tripleMismatch p then
      if m + 1 ≥ 10 then m + 1 else mismatchScan3 rest (m + 1)
    else mismatchScan3 rest m

/-- The observable outcome of `compare_three_way`: alignment offsets, final
mismatch counter, and return value. -/
structure ThreeResult where
  spikeOffset : Nat
  rvOffset : Nat
  mismatchCount : Nat
  exitCode : Nat
deriving DecidableEq, Repr

/-- `compare_three_way` of `src/scripts/trace_compare.py` (lines 138-195).
Note: unlike `compare_traces`, there is no emptiness check and no
alignment-failure check; `rtl_start` defaults to 0 on an empty first
stream and each offset defaults to 0 when the pivot pc is not found. -/
def compare_three_way (rtl spike rv : List TraceRec) : ThreeResult :=
  let rtlStart := match rtl with
    | [] => 0
    | r :: _ => r.pc
  let so := alignOffset rtlStart spike
  let ro := alignOffset rtlStart rv
  let m := mismatchScan3 (zip3 rtl (spike.drop so) (rv.drop ro)) 0
  { spikeOffset := so, rvOffset := ro, mismatchCount := m,
    exitCode := if m = 0 then 0 else 1 }

/-! ## Symbol table (`src/sim/parse_call_trace.py`, `addr_to_symbol`) -/

/-- One symbol-table entry as produced by `get_symbols_from_elf`:
the `(addr, name, sym_type)` triple parsed from one `nm -n` output line. -/
structure Symbol where
  addr : Nat
  name : String
  kind : String
deriving DecidableEq, Repr

/-- `sym_type in ['T', 't', 'W', 'w']` — only text/weak-text symbols are
considered for function resolution. -/
def textKind (k : String) : Bool :=
  k = "T" ∨ k = "t" ∨ k = "W" ∨ k = "w"

/-- The scan loop of `addr_to_symbol` (lines 48-53): running
`(best_match, best_addr)` state, starting from `(None, 0)`, updated at every
symbol with `sym_addr <= addr and sym_addr > best_addr` whose kind is a
text kind. -/
def addrScan (a : Nat) : List Symbol → Option String × Nat → Option String × Nat
  | [], st => st
  | s :: rest, st =>
    if s.addr ≤ a ∧ st.2 < s.addr then
      if textKind s.kind then addrScan a rest (some s.name, s.addr)
      else addrScan a rest st
    else addrScan a rest st

/-- `addr_to_symbol` of `src/sim/parse_call_trace.py` (lines 39-62).
The source formats its result as the string `name` (offset 0) or
`name+0x<offset>`; callers immediately split on `'+'` to recover the base
name. The returned string is modelled by the determining pair
`(base name, offset)`. -/
def addr_to_symbol (a : Nat) (symbols : List Symbol) : Option (String × Nat) :=
  if symbols = [] then none
  else
    match addrScan a symbols (none, 0) with
    | (some name, bestAddr) => some (name, a - bestAddr)
    | (none, _) => none

/-! ## Call-tree reconstruction (`src/sim/parse_call_trace.py`,
`parse_rtl_trace_tree`) -/

/-- The two trace formats recognised by `parse_rtl_trace_tree`. -/
inductive TraceFormat where
  | rtl
  | spike
deriving DecidableEq, Repr

/-- The slice of one trace line that `parse_rtl_trace_tree` inspects, after
token extraction. Each field records the result of one concrete test the
source performs on the raw line text:
* `pc` — the parsed pc token, `none` when the line is skipped
  (`len(parts) < 2`, missing/unparsable pc token);
* `instr` — the parsed `(0x...)` opcode token, when present and parsable;
* `x1Write` — `' x1 ' in line or ' x1  ' in line` (register-write field);
* `jalComment` — `'; jal ' in line.lower()`;
* `jalrComment` — `'; jalr' in line.lower()`;
* `retComment` — `'; ret' in line.lower()`;
* `x0Text` — `'x0' in line.lower()`;
* `target` — the first `<...>` group found by `re.search(r'<([^>]+)>', line)`. -/
structure Line where
  pc : Option Nat
  instr : Option Nat
  x1Write : Bool
  jalComment : Bool
  jalrComment : Bool
  retComment : Bool
  x0Text : Bool
  target : Option String
deriving DecidableEq, Repr

/-- Call detection (lines 234-253): annotation first (`; jal` / `; jalr`
comment together with an `x1` register write), then opcode decoding —
low 7 bits one of JAL `0x6F` / JALR `0x67` and destination-register field
(bits 7..11) equal to 1. -/
def is_call (ln : Line) : Bool :=
  if ln.jalComment ∧ ln.x1Write then true
  else if ln.jalrComment ∧ ln.x1Write then true
  else match ln.instr with
    | some w => (w % 128 = 0x6F ∨ w % 128 = 0x67) ∧ w / 128 % 32 = 1
    | none => false

/-- Return detection (lines 255-268): annotation first (`; ret` comment, or
`; jalr` comment with `x0` in the line), then opcode decoding — low 7 bits
JALR `0x67`, destination-register field (bits 7..11) equal to 0, and
base-register field (bits 15..19) equal to 1. -/
def is_return (ln : Line) : Bool :=
  if ln.retComment then true
  else if ln.jalrComment ∧ ln.x0Text then true
  else match ln.instr with
    | some w => w % 128 = 0x67 ∧ w / 128 % 32 = 0 ∧ w / 32768 % 32 = 1
    | none => false

/-- One frame of the reconstructor's `call_stack` (the dicts appended at
lines 318-324 and 339-344; the annotated-call dict carries no `pending`
key, which `.get('pending')` reads as false). -/
structure Frame where
  name : Option String
  entry_pc : Nat
  line : Nat
  stack_size : Option Nat
  pending : Bool
deriving DecidableEq, Repr

/-- One emitted `tree_output` entry. The source stores
`indent = "  " * depth` and `text = f"{target}{stack_info}"`; both are
determined by the `depth`, `target` and `stackSize` fields kept here. -/
structure Node where
  line : Nat
  pc : Nat
  depth : Nat
  target : String
  stackSize : Option Nat
deriving DecidableEq, Repr

/-- The deduplication key `(stack depth, target function, line // 100)`
added to `seen_calls` (lines 287 and 334). -/
abbrev CallKey := Nat × String × Nat

/-- The mutable state threaded through `parse_rtl_trace_tree`'s main loop:
`call_stack` (held here with the most recent frame first; the python list
appends and pops at its end), `tree_output` (in emission order),
`seen_calls` (a set, held as a list with `∈` as membership) and
`stack_size_cache` (a dict, held as an association list). -/
structure TreeState where
  stack : List Frame
  tree : List Node
  seen : List CallKey
  cache : List (String × Option Nat)
deriving DecidableEq, Repr

/-- `if target_func not in stack_size_cache: stack_size_cache[target_func] =
get_stack_frame_size(...)` followed by reading the entry. The external
`get_stack_frame_size` (an `objdump` subprocess) is abstracted as the
oracle `fs`. -/
def cacheGet (cache : List (String × Option Nat)) (fs : String → Option Nat)
    (k : String) : Option Nat × List (String × Option Nat) :=
  match cache.lookup k with
  | some v => (v, cache)
  | none => (fs k, (k, fs k) :: cache)

/-- The pending-call resolution block (lines 274-298): when the top of the
stack is a pending frame and the current pc resolves, fill in the frame's
name and cached stack size, and emit a tree node unless the frame's
dedup key was already seen. When the pc does not resolve, the block does
nothing. -/
def pendingPhase (fs : String → Option Nat) (fn : Option (String × Nat))
    (s : TreeState) : TreeState :=
  match s.stack with
  | top :: rest =>
    if top.pending then
      match fn with
      | some (base, _) =>
        let c := cacheGet s.cache fs base
        let top' : Frame :=
          { top with name := some base, pending := false, stack_size := c.1 }
        let key : CallKey := (rest.length, base, top.line / 100)
        if key ∈ s.seen then
          { s with stack := top' :: rest, cache := c.2 }
        else
          { s with stack := top' :: rest, cache := c.2, seen := key :: s.seen,
                   tree := s.tree ++ [⟨top.line, top.entry_pc, rest.length, base, c.1⟩] }
      | none => s
    else s
  | [] => s

/-- The call/return block (lines 300-358), guarded by `if func_name:`.
A detected call with an annotation target goes through the dedup check and
pushes + emits only on an unseen key; a detected call without a target
pushes a pending frame in spike format (and does nothing in rtl format);
otherwise a detected return pops when the stack is non-empty. -/
def callPhase (fmt : TraceFormat) (fs : String → Option Nat)
    (fn : Option (String × Nat)) (lineNum : Nat) (pc : Nat) (ln : Line)
    (s : TreeState) : TreeState :=
  match fn with
  | none => s
  | some _ =>
    if is_call ln then
      match ln.target with
      | none =>
        if fmt = .spike then
          { s with stack := ⟨none, pc, lineNum, none, true⟩ :: s.stack }
        else s
      | some tgt =>
        let c := cacheGet s.cache fs tgt
        let key : CallKey := (s.stack.length, tgt, lineNum / 100)
        if key ∈ s.seen then { s with cache := c.2 }
        else
          { s with cache := c.2, seen := key :: s.seen,
                   stack := ⟨some tgt, pc, lineNum, c.1, false⟩ :: s.stack,
                   tree := s.tree ++ [⟨lineNum, pc, s.stack.length, tgt, c.1⟩] }
    else if is_return ln then
      match s.stack with
      | [] => s
      | _ :: rest => { s with stack := rest }
    else s

/-- One iteration of `parse_rtl_trace_tree`'s main loop for the line at
(1-based) number `lineNum`: skip pc-less lines, resolve the pc, run the
pending-resolution block, then the call/return block. -/
def treeStep (symbols : List Symbol) (fmt : TraceFormat)
    (fs : String → Option Nat) (lineNum : Nat) (ln : Line)
    (s : TreeState) : TreeState :=
  match ln.pc with
  | none => s
  | some pc =>
    let fn := addr_to_symbol pc symbols
    callPhase fmt fs fn lineNum pc ln (pendingPhase fs fn s)

/-- The main loop over the trace lines, numbering them from `n`
(`enumerate(f, 1)` starts at 1; skipped lines still advance the number). -/
def treeRun (symbols : List Symbol) (fmt : TraceFormat)
    (fs : String → Option Nat) : List Line → Nat → TreeState → TreeState
  | [], _, s => s
  | ln :: rest, n, s =>
    treeRun symbols fmt fs rest (n + 1) (treeStep symbols fmt fs n ln s)

/-- `parse_rtl_trace_tree` of `src/sim/parse_call_trace.py` (lines 167-369),
for a trace already split into `Line`s of the detected format: the final
state (its `tree` and `cache` are the function's return value; its `stack`
is the final `call_stack`). -/
def parse_rtl_trace_tree (symbols : List Symbol) (fmt : TraceFormat)
    (fs : String → Option Nat) (lines : List Line) : TreeState :=
  treeRun symbols fmt fs lines 1 ⟨[], [], [], []⟩

/-- A line that parses to a pc and is detected as a call. -/
def isCallLine (ln : Line) : Bool :=
  ln.pc.isSome && is_call ln

/-- A line that parses to a pc and is detected as a return. -/
def isReturnLine (ln : Line) : Bool :=
  ln.pc.isSome && is_return ln

/-- Number of trace lines detected as calls — the spec's `C`. -/
def detectedCalls (lines : List Line) : Nat :=
  lines.countP isCallLine

/-- Number of trace lines detected as returns — the spec's `Rt`. -/
def detectedReturns (lines : List Line) : Nat :=
  lines.countP isReturnLine

/-- The dedup key determined by an emitted node: depth, target function and
hundred-line window of the node's line number. -/
def nodeKey (nd : Node) : CallKey := (nd.depth, nd.target, nd.line / 100)

/-- Deduplication invariant of a reconstructor state: the emitted nodes have
pairwise-distinct dedup keys, and every emitted key has been recorded in
`seen_calls`. -/
def KeyInv (s : TreeState) : Prop :=
  (s.tree.map nodeKey).Nodup ∧ ∀ nd ∈ s.tree, nodeKey nd ∈ s.seen

/-- A trace line's pc parses and resolves against the symbol table. -/
def resolves (symbols : List Symbol) (ln : Line) : Bool :=
  match ln.pc with
  | some pc => (addr_to_symbol pc symbols).isSome
  | none => false

/-- A trace line carrying no textual annotation at all: no register-write
field, no disassembly comment, no `<target>` reference — classification
can only use the raw opcode. -/
def annotFree (ln : Line) : Bool :=
  !ln.x1Write ∧ !ln.jalComment ∧ !ln.jalrComment ∧ !ln.retComment ∧
    !ln.x0Text ∧ ln.target = none

/-! ## Concrete inputs used by witnesses and counterexamples -/

/-- Eleven records whose instrs all disagree with `c1B`'s. -/
def c1A : List TraceRec :=
  [⟨1, 0⟩, ⟨2, 0⟩, ⟨3, 0⟩, ⟨4, 0⟩, ⟨5, 0⟩, ⟨6, 0⟩,
   ⟨7, 0⟩, ⟨8, 0⟩, ⟨9, 0⟩, ⟨10, 0⟩, ⟨11, 0⟩]

def c1B : List TraceRec :=
  [⟨1, 1⟩, ⟨2, 1⟩, ⟨3, 1⟩, ⟨4, 1⟩, ⟨5, 1⟩, ⟨6, 1⟩,
   ⟨7, 1⟩, ⟨8, 1⟩, ⟨9, 1⟩, ⟨10, 1⟩, ⟨11, 1⟩]

/-- Reference stream of end-to-end scenario 3: five records. -/
def c6A : List TraceRec := [⟨1, 1⟩, ⟨2, 2⟩, ⟨3, 3⟩, ⟨4, 4⟩, ⟨5, 5⟩]

/-- Candidate stream of end-to-end scenario 3: the first three records. -/
def c6B : List TraceRec := [⟨1, 1⟩, ⟨2, 2⟩, ⟨3, 3⟩]

/-- Reference stream of end-to-end scenario 2. -/
def c7R : List TraceRec := [⟨0x80000000, 5⟩, ⟨0x80000004, 6⟩]

/-- Candidate stream of end-to-end scenario 2: one bootloader record, then
the reference records. -/
def c7S : List TraceRec := [⟨0x7fff0000, 1⟩, ⟨0x80000000, 5⟩, ⟨0x80000004, 6⟩]

/-- A frame-size oracle that never finds a prologue adjustment. -/
def fsNone : String → Option Nat := fun _ => none

/-- An annotation-free spike-format call line: `jal` with destination
register x1 (`0x000000EF`), at pc `0x2000`. -/
def callLn : Line := ⟨some 0x2000, some 0xEF, false, false, false, false, false, none⟩

/-- An annotation-free return line: `jalr x0, 0(x1)` (`0x00008067`), at pc
`0x2004`. -/
def retLn : Line := ⟨some 0x2004, some 0x8067, false, false, false, false, false, none⟩

/-- A single-function symbol table: `foo` at `0x2000`. -/
def symsFoo : List Symbol := [⟨0x2000, "foo", "T"⟩]

/-- A single-function symbol table: `main` at `0x1000`. -/
def symsMain : List Symbol := [⟨0x1000, "main", "T"⟩]

/-- An rtl-format call line with annotation: `; jal` comment, x1 register
write, `<foo>` target, at pc `0x1000`. -/
def annCallLn : Line := ⟨some 0x1000, none, true, true, false, false, false, some "foo"⟩

/-- An annotation-free return line at pc `0x1004`. -/
def retLn2 : Line := ⟨some 0x1004, some 0x8067, false, false, false, false, false, none⟩

/-- A line whose pc `0x10` resolves against no symbol table used here. -/
def lowLn : Line := ⟨some 0x10, some 0xEF, false, false, false, false, false, none⟩

/-- Two qualifying symbols sharing one address. -/
def symsTie : List Symbol := [⟨0x1000, "a", "T"⟩, ⟨0x1000, "b", "T"⟩]

/-! ## Lemmas about the comparison loops -/

lemma mismatchScan_fst (l : List (TraceRec × TraceRec)) :
    ∀ i m, m ≤ 9 → (mismatchScan l i m).1 = min (m + l.countP recMismatch) 10 := by
  induction l with
  | nil =>
    intro i m hm
    simp only [mismatchScan, List.countP_nil, Nat.add_zero]
    omega
  | cons p rest ih =>
    intro i m hm
    simp only [mismatchScan, List.countP_cons]
    by_cases hp : recMismatch p
    · simp only [hp, if_true]
      by_cases hcap : m + 1 ≥ 10
      · simp only [hcap, if_true]
        omega
      · simp only [hcap, if_false]
        rw [ih (i + 1) (m + 1) (by omega)]
        omega
    · simp only [Bool.not_eq_true] at hp
      simp only [hp, Bool.false_eq_true, if_false]
      rw [ih (i + 1) m hm]
      omega

lemma mismatchScan_detail_length (l : List (TraceRec × TraceRec)) :
    ∀ i m, (mismatchScan l i m).1 = m + (mismatchScan l i m).2.length := by
  induction l with
  | nil => intro i m; simp [mismatchScan]
  | cons p rest ih =>
    intro i m
    simp only [mismatchScan]
    by_cases hp : recMismatch p
    · simp only [hp, if_true]
      by_cases hcap : m + 1 ≥ 10
      · simp [hcap]
      · simp only [hcap, if_false, List.length_cons]
        rw [ih (i + 1) (m + 1)]
        omega
    · simp only [Bool.not_eq_true] at hp
      simp only [hp, Bool.false_eq_true, if_false]
      exact ih (i + 1) m

lemma mismatchScan_of_no_mismatch (l : List (TraceRec × TraceRec))
    (h : ∀ p ∈ l, recMismatch p = false) :
    ∀ i m, mismatchScan l i m = (m, []) := by
  induction l with
  | nil => intro i m; simp [mismatchScan]
  | cons p rest ih =>
    intro i m
    have hp : recMismatch p = false := h p (List.mem_cons_self p rest)
    simp only [mismatchScan, hp, Bool.false_eq_true, if_false]
    exact ih (fun q hq => h q (List.mem_cons_of_mem p hq)) (i + 1) m

lemma findPc_eq_some (pivot : Nat) (S : List TraceRec) :
    ∀ (k : Nat) (sk : TraceRec), (∀ e ∈ S.take k, e.pc ≠ pivot) →
    S.get? k = some sk → sk.pc = pivot → findPc pivot S = some k := by
  induction S with
  | nil => intro k sk _ hget _; simp at hget
  | cons e rest ih =>
    intro k sk htake hget hpc
    cases k with
    | zero =>
      simp only [List.get?] at hget
      cases hget
      simp [findPc, hpc]
    | succ k =>
      have he : e.pc ≠ pivot := by
        apply htake
        simp [List.take_succ_cons]
      simp only [findPc, he, if_false]
      rw [ih k sk (fun q hq => htake q (by simp [List.take_succ_cons, hq]))
        (by simpa using hget) hpc]
      rfl

lemma zip3_nil_left (b c : List TraceRec) : zip3 [] b c = [] := by
  cases b <;> cases c <;> rfl

lemma zip3_nil_mid (a c : List TraceRec) : zip3 a [] c = [] := by
  cases a <;> cases c <;> rfl

lemma zip3_nil_right (a b : List TraceRec) : zip3 a b [] = [] := by
  cases a <;> cases b <;> rfl

/-- Unfolding of `compare_traces` on two non-empty streams once alignment
has succeeded. -/
lemma compare_traces_aligned (h1 h2 : TraceRec) (r1 r2 : List TraceRec)
    (k : Nat) (hoff : alignOffset h1.pc (h2 :: r2) = k)
    (hali : ¬(k = 0 ∧ h1.pc ≠ h2.pc)) :
    compare_traces (h1 :: r1) (h2 :: r2) =
      (if (mismatchScan ((h1 :: r1).zip ((h2 :: r2).drop k)) 0 0).1 = 0 then
        if (h1 :: r1).length = (h2 :: r2).length - k then
          ⟨.perfectMatch, k, 0, [], (h1 :: r1).length, (h2 :: r2).length - k, 0⟩
        else if (h1 :: r1).length < (h2 :: r2).length - k then
          ⟨.partialShorter, k, 0, [], (h1 :: r1).length, (h2 :: r2).length - k, 0⟩
        else
          ⟨.partialLonger, k, 0, [], (h1 :: r1).length, (h2 :: r2).length - k, 0⟩
      else
        ⟨.mismatchFail, k,
          (mismatchScan ((h1 :: r1).zip ((h2 :: r2).drop k)) 0 0).1,
          (mismatchScan ((h1 :: r1).zip ((h2 :: r2).drop k)) 0 0).2,
          (h1 :: r1).length, (h2 :: r2).length - k, 1⟩) := by
  subst hoff
  simp only [compare_traces]
  rw [if_neg hali]

/-! ## Claim theorems: alignment & comparison engine -/

/-- C1 counterexample: two aligned streams with 11 true mismatches over the
common compared length. The claim says the reported total mismatch count
equals 11; the code reports 10 (it `break`s out of the loop at the tenth
mismatch, so counting does not continue to the end). -/
theorem C1_counterexample :
    specTrueMismatchCount c1A c1B 0 = 11 ∧
    (compare_traces c1A c1B).offset = 0 ∧
    (compare_traces c1A c1B).mismatchCount = 10 ∧
    (compare_traces c1A c1B).detail.length = 10 := by
  refine ⟨by decide, by decide, by decide, by decide⟩

/-- C1 amended: for every pair of non-empty streams on which alignment does
not fail, the detailed mismatch list has at most 10 entries (and exactly as
many as the reported count), but the reported total mismatch count equals
`min N 10`, not `N`: the loop stops counting at the tenth mismatch. -/
theorem C1_mismatch_cap (h1 h2 : TraceRec) (r1 r2 : List TraceRec)
    (hali : ¬(alignOffset h1.pc (h2 :: r2) = 0 ∧ h1.pc ≠ h2.pc)) :
    (compare_traces (h1 :: r1) (h2 :: r2)).mismatchCount =
      min (specTrueMismatchCount (h1 :: r1) (h2 :: r2)
        (alignOffset h1.pc (h2 :: r2))) 10 ∧
    (compare_traces (h1 :: r1) (h2 :: r2)).detail.length =
      (compare_traces (h1 :: r1) (h2 :: r2)).mismatchCount ∧
    (compare_traces (h1 :: r1) (h2 :: r2)).detail.length ≤ 10 := by
  have hali' : ¬(alignOffset h1.pc (h2 :: r2) = 0 ∧ h1.pc ≠ h2.pc) := hali
  rw [compare_traces_aligned h1 h2 r1 r2 (alignOffset h1.pc (h2 :: r2)) rfl hali']
  have hfst := mismatchScan_fst
    ((h1 :: r1).zip ((h2 :: r2).drop (alignOffset h1.pc (h2 :: r2)))) 0 0
    (by omega)
  have hdet := mismatchScan_detail_length
    ((h1 :: r1).zip ((h2 :: r2).drop (alignOffset h1.pc (h2 :: r2)))) 0 0
  simp only [Nat.zero_add] at hfst hdet
  simp only [specTrueMismatchCount]
  split
  case isTrue h0 =>
    split
    · exact ⟨by dsimp only; omega, by simp, by simp⟩
    · split
      · exact ⟨by dsimp only; omega, by simp, by simp⟩
      · exact ⟨by dsimp only; omega, by simp, by simp⟩
  case isFalse h0 =>
    exact ⟨by dsimp only; omega, by dsimp only; omega, by dsimp only; omega⟩

/-- C1 witness: a one-record aligned pair with a single true mismatch, run
through `C1_mismatch_cap`. -/
theorem C1_witness :
    (compare_traces [⟨1, 0⟩] [⟨1, 1⟩]).mismatchCount =
      min (specTrueMismatchCount [⟨1, 0⟩] [⟨1, 1⟩]
        (alignOffset (1 : Nat) [⟨1, 1⟩])) 10 ∧
    (compare_traces [⟨1, 0⟩] [⟨1, 1⟩]).detail.length =
      (compare_traces [⟨1, 0⟩] [⟨1, 1⟩]).mismatchCount ∧
    (compare_traces [⟨1, 0⟩] [⟨1, 1⟩]).detail.length ≤ 10 :=
  C1_mismatch_cap ⟨1, 0⟩ ⟨1, 1⟩ [] [] (by decide)

/-- C5 counterexample: the three-way comparison does not fail on empty
input — with any one of the three streams empty the common compared length
is 0, so zero mismatches are found and the function returns 0 (pass),
contradicting the claim that it fails. -/
theorem C5_counterexample :
    (compare_three_way [] [⟨0, 0⟩] [⟨0, 0⟩]).exitCode = 0 ∧
    (compare_three_way [⟨0, 0⟩] [] [⟨0, 0⟩]).exitCode = 0 ∧
    (compare_three_way [⟨0, 0⟩] [⟨0, 0⟩] []).exitCode = 0 := by
  refine ⟨by decide, by decide, by decide⟩

/-- C5 amended: the two-way comparison yields the empty-input failure
(exit code 1) whenever either stream is empty, for every stream on the
other side; the three-way comparison performs no emptiness check and
instead reports zero mismatches and exit code 0 (pass) whenever any of its
three inputs is empty. -/
theorem C5_empty_handling :
    (∀ X : List TraceRec,
      (compare_traces [] X).verdict = Verdict.emptyFail ∧
      (compare_traces [] X).exitCode = 1 ∧
      (compare_traces X []).verdict = Verdict.emptyFail ∧
      (compare_traces X []).exitCode = 1) ∧
    (∀ a b c : List TraceRec, a = [] ∨ b = [] ∨ c = [] →
      (compare_three_way a b c).mismatchCount = 0 ∧
      (compare_three_way a b c).exitCode = 0) := by
  constructor
  · intro X
    cases X with
    | nil => exact ⟨rfl, rfl, rfl, rfl⟩
    | cons x xs => exact ⟨rfl, rfl, rfl, rfl⟩
  · intro a b c h
    rcases h with h | h | h
    · subst h
      simp [compare_three_way, zip3_nil_left, mismatchScan3]
    · subst h
      simp [compare_three_way, List.drop_nil, zip3_nil_mid, mismatchScan3]
    · subst h
      simp [compare_three_way, List.drop_nil, zip3_nil_right, mismatchScan3]

/-- C5 witness: concrete instances of both halves of `C5_empty_handling`. -/
theorem C5_witness :
    (compare_traces [] [⟨0, 0⟩]).verdict = Verdict.emptyFail ∧
    (compare_traces [⟨0, 0⟩] []).verdict = Verdict.emptyFail ∧
    (compare_three_way [] [⟨0, 0⟩] [⟨0, 0⟩]).exitCode = 0 :=
  ⟨(C5_empty_handling.1 [⟨0, 0⟩]).1, (C5_empty_handling.1 [⟨0, 0⟩]).2.2.1,
    (C5_empty_handling.2 [] [⟨0, 0⟩] [⟨0, 0⟩] (Or.inl rfl)).2⟩

/-- C6: in the lenient two-stream comparison, when every effective record of
the second stream matches and the first stream is strictly longer, the
verdict is the longer-partial pass (exit code 0, zero mismatches) and the
surfaced extra-tail length is the difference of the two effective
lengths. -/
theorem C6_partial_longer (h1 h2 : TraceRec) (r1 r2 : List TraceRec)
    (hali : ¬(alignOffset h1.pc (h2 :: r2) = 0 ∧ h1.pc ≠ h2.pc))
    (hmatch : ∀ p ∈ (h1 :: r1).zip
      ((h2 :: r2).drop (alignOffset h1.pc (h2 :: r2))), recMismatch p = false)
    (hlonger : (h2 :: r2).length - alignOffset h1.pc (h2 :: r2) <
      (h1 :: r1).length) :
    (compare_traces (h1 :: r1) (h2 :: r2)).verdict = Verdict.partialLonger ∧
    (compare_traces (h1 :: r1) (h2 :: r2)).exitCode = 0 ∧
    (compare_traces (h1 :: r1) (h2 :: r2)).mismatchCount = 0 ∧
    (compare_traces (h1 :: r1) (h2 :: r2)).len1 -
        (compare_traces (h1 :: r1) (h2 :: r2)).len2eff =
      (h1 :: r1).length -
        ((h2 :: r2).length - alignOffset h1.pc (h2 :: r2)) := by
  rw [compare_traces_aligned h1 h2 r1 r2 (alignOffset h1.pc (h2 :: r2)) rfl hali]
  rw [mismatchScan_of_no_mismatch _ hmatch 0 0]
  rw [if_pos rfl, if_neg (by omega), if_neg (by omega)]
  exact ⟨rfl, rfl, rfl, rfl⟩

/-- C6 witness: end-to-end scenario 3 — reference of length 5 against a
matching candidate of length 3 (alignment offset 0) — via
`C6_partial_longer`: verdict partial-longer, exit 0, zero mismatches,
extra tail 2. -/
theorem C6_witness :
    (compare_traces c6A c6B).verdict = Verdict.partialLonger ∧
    (compare_traces c6A c6B).exitCode = 0 ∧
    (compare_traces c6A c6B).mismatchCount = 0 ∧
    (compare_traces c6A c6B).len1 - (compare_traces c6A c6B).len2eff = 2 := by
  have h := C6_partial_longer ⟨1, 1⟩ ⟨1, 1⟩
    [⟨2, 2⟩, ⟨3, 3⟩, ⟨4, 4⟩, ⟨5, 5⟩] [⟨2, 2⟩, ⟨3, 3⟩]
    (by decide) (by decide) (by decide)
  exact ⟨h.1, h.2.1, h.2.2.1, h.2.2.2⟩

/-- C7: for a non-empty reference stream whose first pc occurs first at
index `k` of the candidate stream, with identical suffix over the common
length, the comparison reports alignment offset `k` and zero mismatches;
when additionally the effective lengths agree, the verdict is the perfect
match. -/
theorem C7_alignment (r0 : TraceRec) (rest S : List TraceRec)
    (k : Nat) (sk : TraceRec)
    (hfirst : ∀ e ∈ S.take k, e.pc ≠ r0.pc)
    (hk : S.get? k = some sk) (hkpc : sk.pc = r0.pc)
    (hsuffix : ∀ p ∈ (r0 :: rest).zip (S.drop k),
      p.1.pc = p.2.pc ∧ p.1.instr = p.2.instr) :
    (compare_traces (r0 :: rest) S).offset = k ∧
    (compare_traces (r0 :: rest) S).mismatchCount = 0 ∧
    (compare_traces (r0 :: rest) S).detail = [] ∧
    ((r0 :: rest).length = S.length - k →
      (compare_traces (r0 :: rest) S).verdict = Verdict.perfectMatch) := by
  cases S with
  | nil => simp at hk
  | cons h2 r2 =>
    have hfind : findPc r0.pc (h2 :: r2) = some k :=
      findPc_eq_some r0.pc (h2 :: r2) k sk hfirst hk hkpc
    have hoff : alignOffset r0.pc (h2 :: r2) = k := by
      simp [alignOffset, hfind]
    have hali : ¬(k = 0 ∧ r0.pc ≠ h2.pc) := by
      rintro ⟨hk0, hne⟩
      subst hk0
      simp only [List.get?] at hk
      cases hk
      exact hne hkpc.symm
    have hnomis : ∀ p ∈ (r0 :: rest).zip ((h2 :: r2).drop k),
        recMismatch p = false := by
      intro p hp
      have h := hsuffix p hp
      simp [recMismatch, h.1, h.2]
    rw [compare_traces_aligned r0 h2 rest r2 k hoff hali]
    rw [mismatchScan_of_no_mismatch _ hnomis 0 0]
    rw [if_pos rfl]
    by_cases hlen : (r0 :: rest).length = (h2 :: r2).length - k
    · rw [if_pos hlen]
      exact ⟨rfl, rfl, rfl, fun _ => rfl⟩
    · rw [if_neg hlen]
      by_cases hlt : (r0 :: rest).length < (h2 :: r2).length - k
      · rw [if_pos hlt]
        exact ⟨rfl, rfl, rfl, fun h => absurd h hlen⟩
      · rw [if_neg hlt]
        exact ⟨rfl, rfl, rfl, fun h => absurd h hlen⟩

/-! ## Lemmas about the symbol-table scan -/

lemma addrScan_append (a : Nat) (l₁ l₂ : List Symbol)
    (st : Option String × Nat) :
    addrScan a (l₁ ++ l₂) st = addrScan a l₂ (addrScan a l₁ st) := by
  induction l₁ generalizing st with
  | nil => rfl
  | cons s rest ih =>
    simp only [List.cons_append, addrScan]
    split
    · split
      · exact ih _
      · exact ih _
    · exact ih _

/-- Complete characterisation of the `addr_to_symbol` scan loop: either no
update ever fires (and every qualifying symbol with address ≤ `a` in the
scanned list is bounded by the incoming best address), or the final state
names some qualifying symbol of the list that strictly improved on the
incoming best address and bounds every other qualifying one. -/
lemma addrScan_cases (a : Nat) (l : List Symbol) :
    ∀ (b : Option String) (ba : Nat),
      (addrScan a l (b, ba) = (b, ba) ∧
        ∀ t ∈ l, textKind t.kind → t.addr ≤ a → t.addr ≤ ba) ∨
      (∃ s ∈ l, textKind s.kind ∧ s.addr ≤ a ∧ ba < s.addr ∧
        addrScan a l (b, ba) = (some s.name, s.addr) ∧
        ∀ t ∈ l, textKind t.kind → t.addr ≤ a → t.addr ≤ s.addr) := by
  induction l with
  | nil => intro b ba; left; exact ⟨rfl, by simp⟩
  | cons s rest ih =>
    intro b ba
    by_cases hup : s.addr ≤ a ∧ ba < s.addr
    · by_cases hk : textKind s.kind
      · have hstep : addrScan a (s :: rest) (b, ba) =
            addrScan a rest (some s.name, s.addr) := by
          simp only [addrScan]
          rw [if_pos hup, if_pos hk]
        rcases ih (some s.name) s.addr with ⟨heq, hbound⟩ |
          ⟨s', hs', hk', hle', hlt', heq', hbound'⟩
        · right
          refine ⟨s, List.mem_cons_self s rest, hk, hup.1, hup.2,
            by rw [hstep, heq], ?_⟩
          intro t ht htk hta
          rcases List.mem_cons.mp ht with h | h
          · subst h; exact le_refl _
          · exact hbound t h htk hta
        · right
          refine ⟨s', List.mem_cons_of_mem s hs', hk', hle',
            lt_trans hup.2 hlt', by rw [hstep, heq'], ?_⟩
          intro t ht htk hta
          rcases List.mem_cons.mp ht with h | h
          · subst h; exact le_of_lt hlt'
          · exact hbound' t h htk hta
      · have hstep : addrScan a (s :: rest) (b, ba) =
            addrScan a rest (b, ba) := by
          simp only [addrScan]
          rw [if_pos hup, if_neg hk]
        rcases ih b ba with ⟨heq, hbound⟩ | ⟨s', hs', h1, h2, h3, h4, h5⟩
        · left
          refine ⟨by rw [hstep, heq], ?_⟩
          intro t ht htk hta
          rcases List.mem_cons.mp ht with h | h
          · subst h; exact absurd htk hk
          · exact hbound t h htk hta
        · right
          refine ⟨s', List.mem_cons_of_mem s hs', h1, h2, h3,
            by rw [hstep, h4], ?_⟩
          intro t ht htk hta
          rcases List.mem_cons.mp ht with h | h
          · subst h; exact absurd htk hk
          · exact h5 t h htk hta
    · have hstep : addrScan a (s :: rest) (b, ba) =
          addrScan a rest (b, ba) := by
        simp only [addrScan]
        rw [if_neg hup]
      rcases ih b ba with ⟨heq, hbound⟩ | ⟨s', hs', h1, h2, h3, h4, h5⟩
      · left
        refine ⟨by rw [hstep, heq], ?_⟩
        intro t ht htk hta
        rcases List.mem_cons.mp ht with h | h
        · subst h
          exact Nat.le_of_not_lt (fun hl => hup ⟨hta, hl⟩)
        · exact hbound t h htk hta
      · right
        refine ⟨s', List.mem_cons_of_mem s hs', h1, h2, h3,
          by rw [hstep, h4], ?_⟩
        intro t ht htk hta
        rcases List.mem_cons.mp ht with h | h
        · subst h
          exact le_trans (Nat.le_of_not_lt (fun hl => hup ⟨hta, hl⟩))
            (le_of_lt h3)
        · exact h5 t h htk hta

/-! ## Claim theorems: symbol resolution -/

/-- C4 counterexample: two qualifying symbols share the greatest address
≤ pc; the scan's strict `sym_addr > best_addr` test keeps the **first**
one encountered ("a"), not the last ("b") as the claim states. Moreover a
qualifying symbol at address 0 is never returned (`best_addr` starts at 0
and updates require a strictly greater address), so resolution of pc 0x50
against a lone symbol at address 0 yields none, where the claim requires
the greatest-address symbol ≤ pc. -/
theorem C4_counterexample :
    addr_to_symbol 0x1000 symsTie = some ("a", 0) ∧
    symsTie.getLast? = some ⟨0x1000, "b", "T"⟩ ∧
    addr_to_symbol 0x50 [⟨0, "zero", "T"⟩] = none := by
  refine ⟨by decide, by decide, by decide⟩

/-- C4 amended: resolution returns the qualifying (text/weak-text) symbol
with the greatest **nonzero** address ≤ pc together with the offset
pc − address; it returns none exactly when no qualifying symbol has a
nonzero address ≤ pc; and when several qualifying symbols share that
greatest address, the **first** one encountered in input order is
returned. -/
theorem C4_resolution (a : Nat) (symbols : List Symbol) :
    (addr_to_symbol a symbols = none ↔
      ∀ s ∈ symbols, textKind s.kind → ¬(0 < s.addr ∧ s.addr ≤ a)) ∧
    (∀ n off, addr_to_symbol a symbols = some (n, off) →
      ∃ s ∈ symbols, textKind s.kind ∧ 0 < s.addr ∧ s.addr ≤ a ∧
        n = s.name ∧ off = a - s.addr ∧
        ∀ t ∈ symbols, textKind t.kind → t.addr ≤ a → t.addr ≤ s.addr) ∧
    (∀ (l₁ : List Symbol) (s : Symbol) (l₂ : List Symbol),
      symbols = l₁ ++ s :: l₂ → textKind s.kind →
      0 < s.addr → s.addr ≤ a →
      (∀ t ∈ l₁, textKind t.kind → t.addr ≤ a → t.addr < s.addr) →
      (∀ t ∈ l₂, textKind t.kind → t.addr ≤ a → t.addr ≤ s.addr) →
      addr_to_symbol a symbols = some (s.name, a - s.addr)) := by
  refine ⟨?_, ?_, ?_⟩
  · constructor
    · intro hnone s hs htk hcand
      obtain ⟨hpos, hle⟩ := hcand
      by_cases hemp : symbols = []
      · subst hemp
        simp at hs
      · rcases addrScan_cases a symbols none 0 with ⟨heq, hbound⟩ |
          ⟨s', _, _, _, _, heq', _⟩
        · exact absurd (hbound s hs htk hle) (by omega)
        · simp only [addr_to_symbol, hemp, if_false, heq'] at hnone
          simp at hnone
    · intro hall
      by_cases hemp : symbols = []
      · simp [addr_to_symbol, hemp]
      · rcases addrScan_cases a symbols none 0 with ⟨heq, _⟩ |
          ⟨s', hs', hk', hle', hlt', _, _⟩
        · simp [addr_to_symbol, hemp, heq]
        · exact absurd ⟨hlt', hle'⟩ (hall s' hs' hk')
  · intro n off hsome
    by_cases hemp : symbols = []
    · simp [addr_to_symbol, hemp] at hsome
    · rcases addrScan_cases a symbols none 0 with ⟨heq, _⟩ |
        ⟨s', hs', hk', hle', hlt', heq', hbound'⟩
      · simp [addr_to_symbol, hemp, heq] at hsome
      · simp only [addr_to_symbol, hemp, if_false, heq',
          Option.some.injEq, Prod.mk.injEq] at hsome
        exact ⟨s', hs', hk', hlt', hle', hsome.1.symm, hsome.2.symm, hbound'⟩
  · intro l₁ s l₂ hsplit htk hpos hle hl₁ hl₂
    subst hsplit
    have hemp : ¬(l₁ ++ s :: l₂ = []) := by simp
    rcases hst : addrScan a l₁ (none, 0) with ⟨b1, ba1⟩
    have hba1 : ba1 < s.addr := by
      rcases addrScan_cases a l₁ none 0 with ⟨heq, _⟩ |
        ⟨s', hs', hk', hle', _, heq', _⟩
      · rw [hst] at heq
        cases heq
        omega
      · rw [hst] at heq'
        cases heq'
        exact hl₁ s' hs' hk' hle'
    have hmid : addrScan a (s :: l₂) (b1, ba1) =
        addrScan a l₂ (some s.name, s.addr) := by
      simp only [addrScan]
      rw [if_pos ⟨hle, hba1⟩, if_pos htk]
    have htail : addrScan a l₂ (some s.name, s.addr) = (some s.name, s.addr) := by
      rcases addrScan_cases a l₂ (some s.name) s.addr with ⟨heq, _⟩ |
        ⟨s2, hs2, hk2, hle2, hlt2, _, _⟩
      · exact heq
      · exact absurd (hl₂ s2 hs2 hk2 hle2) (by omega)
    have hfull : addrScan a (l₁ ++ s :: l₂) (none, 0) = (some s.name, s.addr) := by
      rw [addrScan_append, hst, hmid, htail]
    simp [addr_to_symbol, hemp, hfull]

/-- C4 witness: the tie input run through the first-on-tie part of
`C4_resolution`: the first of the two equal-address qualifying symbols is
returned. -/
theorem C4_witness :
    addr_to_symbol 0x1000 symsTie = some ("a", 0x1000 - 0x1000) :=
  (C4_resolution 0x1000 symsTie).2.2 [] ⟨0x1000, "a", "T"⟩ [⟨0x1000, "b", "T"⟩]
    rfl (by decide) (by decide) (by decide) (by simp) (by decide)

/-- C7 witness: end-to-end scenario 2 — the candidate has one bootloader
record before the reference's start pc — via `C7_alignment`: offset 1,
zero mismatches, perfect-match verdict. -/
theorem C7_witness :
    (compare_traces c7R c7S).offset = 1 ∧
    (compare_traces c7R c7S).mismatchCount = 0 ∧
    (compare_traces c7R c7S).verdict = Verdict.perfectMatch := by
  have h := C7_alignment ⟨0x80000000, 5⟩ [⟨0x80000004, 6⟩] c7S 1
    ⟨0x80000000, 5⟩ (by decide) (by decide) (by decide) (by decide)
  exact ⟨h.1, h.2.1, h.2.2.2 (by decide)⟩

/-! ## Lemmas about the call-tree reconstructor -/

lemma treeStep_no_pc (symbols : List Symbol) (fmt : TraceFormat)
    (fs : String → Option Nat) (n : Nat) (ln : Line) (s : TreeState)
    (h : ln.pc = none) : treeStep symbols fmt fs n ln s = s := by
  simp [treeStep, h]

lemma pendingPhase_fn_none (fs : String → Option Nat) (s : TreeState) :
    pendingPhase fs none s = s := by
  rcases s with ⟨stk, tr, se, ca⟩
  cases stk with
  | nil => rfl
  | cons top rest =>
    simp only [pendingPhase]
    split <;> rfl

lemma treeStep_unresolved (symbols : List Symbol) (fmt : TraceFormat)
    (fs : String → Option Nat) (n : Nat) (ln : Line) (s : TreeState)
    (pc : Nat) (hpc : ln.pc = some pc)
    (hres : addr_to_symbol pc symbols = none) :
    treeStep symbols fmt fs n ln s = s := by
  simp only [treeStep, hpc, hres]
  rw [pendingPhase_fn_none]
  rfl

lemma treeStep_not_resolves (symbols : List Symbol) (fmt : TraceFormat)
    (fs : String → Option Nat) (n : Nat) (ln : Line) (s : TreeState)
    (h : resolves symbols ln = false) :
    treeStep symbols fmt fs n ln s = s := by
  cases hpc : ln.pc with
  | none => exact treeStep_no_pc symbols fmt fs n ln s hpc
  | some pc =>
    apply treeStep_unresolved symbols fmt fs n ln s pc hpc
    simp only [resolves, hpc] at h
    exact Option.not_isSome_iff_eq_none.mp (by simp [h])

lemma treeRun_not_resolves (symbols : List Symbol) (fmt : TraceFormat)
    (fs : String → Option Nat) :
    ∀ (rest : List Line) (n : Nat) (s : TreeState),
      (∀ ln ∈ rest, resolves symbols ln = false) →
      treeRun symbols fmt fs rest n s = s := by
  intro rest
  induction rest with
  | nil => intro n s _; rfl
  | cons ln rs ih =>
    intro n s h
    simp only [treeRun]
    rw [treeStep_not_resolves symbols fmt fs n ln s
      (h ln (List.mem_cons_self ln rs))]
    exact ih (n + 1) s (fun q hq => h q (List.mem_cons_of_mem ln hq))

lemma pendingPhase_stack_length (fs : String → Option Nat)
    (fn : Option (String × Nat)) (s : TreeState) :
    (pendingPhase fs fn s).stack.length = s.stack.length := by
  rcases s with ⟨stk, tr, se, ca⟩
  cases stk with
  | nil => rfl
  | cons top rest =>
    cases fn with
    | none => rw [pendingPhase_fn_none]
    | some p =>
      obtain ⟨base, off⟩ := p
      simp only [pendingPhase]
      split
      · split <;> simp
      · rfl

lemma pendingPhase_seen_mono (fs : String → Option Nat)
    (fn : Option (String × Nat)) (s : TreeState) (k : CallKey)
    (h : k ∈ s.seen) : k ∈ (pendingPhase fs fn s).seen := by
  rcases s with ⟨stk, tr, se, ca⟩
  cases stk with
  | nil => exact h
  | cons top rest =>
    cases fn with
    | none => rw [pendingPhase_fn_none]; exact h
    | some p =>
      obtain ⟨base, off⟩ := p
      simp only [pendingPhase]
      split
      · split
        · exact h
        · exact List.mem_cons_of_mem _ h
      · exact h

lemma callPhase_stack_le (fmt : TraceFormat) (fs : String → Option Nat)
    (fn : Option (String × Nat)) (n pc : Nat) (ln : Line) (s : TreeState) :
    (callPhase fmt fs fn n pc ln s).stack.length ≤
      s.stack.length + (if is_call ln then 1 else 0) := by
  cases fn with
  | none => simp [callPhase]
  | some p =>
    by_cases hc : is_call ln
    · simp only [callPhase, hc, if_true]
      rcases htg : ln.target with _ | tgt
      · by_cases hfmt : fmt = TraceFormat.spike
        · simp [hfmt]
        · simp [hfmt]
      · by_cases hk : (s.stack.length, tgt, n / 100) ∈ s.seen
        · simp [hk]
        · simp [hk]
    · simp only [Bool.not_eq_true] at hc
      simp only [callPhase, hc, Bool.false_eq_true, if_false]
      by_cases hr : is_return ln
      · simp only [hr, if_true]
        cases hstk : s.stack with
        | nil => simp [hstk]
        | cons f t =>
          simp only [hstk, List.length_cons]
          omega
      · simp [hr]

lemma treeStep_stack_le (symbols : List Symbol) (fmt : TraceFormat)
    (fs : String → Option Nat) (n : Nat) (ln : Line) (s : TreeState) :
    (treeStep symbols fmt fs n ln s).stack.length ≤
      s.stack.length + (if isCallLine ln then 1 else 0) := by
  cases hpc : ln.pc with
  | none =>
    rw [treeStep_no_pc symbols fmt fs n ln s hpc]
    omega
  | some pc =>
    simp only [treeStep, hpc]
    calc (callPhase fmt fs (addr_to_symbol pc symbols) n pc ln
            (pendingPhase fs (addr_to_symbol pc symbols) s)).stack.length
        ≤ (pendingPhase fs (addr_to_symbol pc symbols) s).stack.length +
            (if is_call ln then 1 else 0) :=
          callPhase_stack_le fmt fs (addr_to_symbol pc symbols) n pc ln _
      _ ≤ s.stack.length + (if isCallLine ln then 1 else 0) := by
          rw [pendingPhase_stack_length]
          have : isCallLine ln = is_call ln := by
            simp [isCallLine, hpc]
          rw [this]

lemma treeRun_stack_le (symbols : List Symbol) (fmt : TraceFormat)
    (fs : String → Option Nat) :
    ∀ (lines : List Line) (n : Nat) (s : TreeState),
      (treeRun symbols fmt fs lines n s).stack.length ≤
        s.stack.length + detectedCalls lines := by
  intro lines
  induction lines with
  | nil => intro n s; simp [treeRun, detectedCalls]
  | cons ln rest ih =>
    intro n s
    simp only [treeRun]
    calc (treeRun symbols fmt fs rest (n + 1)
            (treeStep symbols fmt fs n ln s)).stack.length
        ≤ (treeStep symbols fmt fs n ln s).stack.length + detectedCalls rest :=
          ih (n + 1) _
      _ ≤ s.stack.length + (if isCallLine ln then 1 else 0) +
            detectedCalls rest := by
          have := treeStep_stack_le symbols fmt fs n ln s
          omega
      _ ≤ s.stack.length + detectedCalls (ln :: rest) := by
          simp only [detectedCalls, List.countP_cons]
          split <;> omega

lemma annotFree_fields (ln : Line) (ha : annotFree ln = true) :
    ln.x1Write = false ∧ ln.jalComment = false ∧ ln.jalrComment = false ∧
    ln.retComment = false ∧ ln.x0Text = false ∧ ln.target = none := by
  simpa [annotFree] using ha

lemma annotFree_not_call_and_return (ln : Line) (ha : annotFree ln = true) :
    ¬(is_call ln = true ∧ is_return ln = true) := by
  obtain ⟨h1, h2, h3, h4, h5, h6⟩ := annotFree_fields ln ha
  rintro ⟨hc, hr⟩
  simp only [is_call, h1, h2, Bool.false_eq_true, false_and, and_false,
    if_false] at hc
  simp only [is_return, h3, h4, h5, Bool.false_eq_true, false_and, and_false,
    if_false] at hr
  cases hi : ln.instr with
  | none =>
    rw [hi] at hc
    simp at hc
  | some w =>
    rw [hi] at hc hr
    simp only [decide_eq_true_eq] at hc hr
    omega

lemma treeStep_call_push (symbols : List Symbol) (fs : String → Option Nat)
    (n : Nat) (ln : Line) (s : TreeState) (pc : Nat) (b : String) (o : Nat)
    (hpc : ln.pc = some pc) (hfn : addr_to_symbol pc symbols = some (b, o))
    (hc : is_call ln = true) (htg : ln.target = none) :
    (treeStep symbols .spike fs n ln s).stack.length = s.stack.length + 1 := by
  simp only [treeStep, hpc, hfn, callPhase, hc, if_true, htg]
  simp [pendingPhase_stack_length]

lemma treeStep_return_pop (symbols : List Symbol) (fmt : TraceFormat)
    (fs : String → Option Nat) (n : Nat) (ln : Line) (s : TreeState)
    (pc : Nat) (b : String) (o : Nat)
    (hpc : ln.pc = some pc) (hfn : addr_to_symbol pc symbols = some (b, o))
    (hc : is_call ln = false) (hr : is_return ln = true) :
    (treeStep symbols fmt fs n ln s).stack.length = s.stack.length - 1 := by
  simp only [treeStep, hpc, hfn, callPhase, hc, Bool.false_eq_true, if_false,
    hr, if_true]
  cases hstk : (pendingPhase fs (some (b, o)) s).stack with
  | nil =>
    have hlen := pendingPhase_stack_length fs (some (b, o)) s
    rw [hstk] at hlen
    simp only [List.length_nil] at hlen
    simp only [hstk]
    simp only [List.length_nil]
    omega
  | cons f t =>
    have hlen := pendingPhase_stack_length fs (some (b, o)) s
    rw [hstk] at hlen
    simp only [List.length_cons] at hlen
    simp only [hstk]
    show t.length = s.stack.length - 1
    omega

lemma treeStep_neither (symbols : List Symbol) (fmt : TraceFormat)
    (fs : String → Option Nat) (n : Nat) (ln : Line) (s : TreeState)
    (pc : Nat) (hpc : ln.pc = some pc)
    (hc : is_call ln = false) (hr : is_return ln = false) :
    (treeStep symbols fmt fs n ln s).stack.length = s.stack.length := by
  cases hfn : addr_to_symbol pc symbols with
  | none => rw [treeStep_unresolved symbols fmt fs n ln s pc hpc hfn]
  | some p =>
    obtain ⟨b, o⟩ := p
    simp only [treeStep, hpc, hfn, callPhase, hc, Bool.false_eq_true, if_false,
      hr]
    exact pendingPhase_stack_length fs (some (b, o)) s

lemma treeRun_balance (symbols : List Symbol) (fs : String → Option Nat) :
    ∀ (lines : List Line) (n : Nat) (s : TreeState),
      (∀ ln ∈ lines, resolves symbols ln = true) →
      (∀ ln ∈ lines, annotFree ln = true) →
      (∀ k, k ≤ lines.length →
        detectedReturns (lines.take k) ≤
          s.stack.length + detectedCalls (lines.take k)) →
      (treeRun symbols .spike fs lines n s).stack.length =
        s.stack.length + detectedCalls lines - detectedReturns lines := by
  intro lines
  induction lines with
  | nil =>
    intro n s _ _ _
    simp [treeRun, detectedCalls, detectedReturns]
  | cons ln rest ih =>
    intro n s hres hann hbal
    have hres0 := hres ln (List.mem_cons_self ln rest)
    have hann0 := hann ln (List.mem_cons_self ln rest)
    obtain ⟨pc, hpc⟩ : ∃ pc, ln.pc = some pc := by
      cases h : ln.pc with
      | none =>
        exfalso
        simp only [resolves, h] at hres0
        exact absurd hres0 (by simp)
      | some pc => exact ⟨pc, rfl⟩
    obtain ⟨⟨b, o⟩, hfn⟩ : ∃ p, addr_to_symbol pc symbols = some p := by
      simp only [resolves, hpc] at hres0
      exact Option.isSome_iff_exists.mp hres0
    have htg : ln.target = none := (annotFree_fields ln hann0).2.2.2.2.2
    have hresr : ∀ q ∈ rest, resolves symbols q = true :=
      fun q hq => hres q (List.mem_cons_of_mem ln hq)
    have hannr : ∀ q ∈ rest, annotFree q = true :=
      fun q hq => hann q (List.mem_cons_of_mem ln hq)
    by_cases hc : is_call ln = true
    · have hnr : is_return ln = false := by
        cases h : is_return ln with
        | false => rfl
        | true => exact absurd ⟨hc, h⟩ (annotFree_not_call_and_return ln hann0)
      have hcl : isCallLine ln = true := by simp [isCallLine, hpc, hc]
      have hrl : isReturnLine ln = false := by simp [isReturnLine, hnr]
      have hstep : (treeStep symbols .spike fs n ln s).stack.length =
          s.stack.length + 1 :=
        treeStep_call_push symbols fs n ln s pc b o hpc hfn hc htg
      simp only [treeRun]
      rw [ih (n + 1) (treeStep symbols .spike fs n ln s) hresr hannr ?_]
      · simp only [detectedCalls, detectedReturns, List.countP_cons, hcl, hrl, eq_self_iff_true, if_true,
          Bool.false_eq_true, if_false]
        rw [hstep]
        omega
      · intro k hk
        have hb := hbal (k + 1) (by simpa using Nat.succ_le_succ hk)
        simp only [List.take_succ_cons, detectedCalls, detectedReturns,
          List.countP_cons, hcl, hrl, eq_self_iff_true, if_true,
          Bool.false_eq_true, if_false] at hb ⊢
        rw [hstep]
        omega
    · have hc' : is_call ln = false := by
        cases h : is_call ln with
        | false => rfl
        | true => exact absurd h hc
      have hcl : isCallLine ln = false := by simp [isCallLine, hc']
      by_cases hr : is_return ln = true
      · have hrl : isReturnLine ln = true := by simp [isReturnLine, hpc, hr]
        have h1 : (1 : Nat) ≤ s.stack.length := by
          have hb := hbal 1 (by simp)
          simp only [List.take_succ_cons, List.take_zero, detectedCalls,
            detectedReturns, List.countP_cons, List.countP_nil, hcl, hrl, eq_self_iff_true, if_true,
            Bool.false_eq_true, if_false] at hb
          omega
        have hstep : (treeStep symbols .spike fs n ln s).stack.length =
            s.stack.length - 1 :=
          treeStep_return_pop symbols .spike fs n ln s pc b o hpc hfn hc' hr
        simp only [treeRun]
        rw [ih (n + 1) (treeStep symbols .spike fs n ln s) hresr hannr ?_]
        · simp only [detectedCalls, detectedReturns, List.countP_cons, hcl, hrl, eq_self_iff_true, if_true,
          Bool.false_eq_true, if_false]
          rw [hstep]
          omega
        · intro k hk
          have hb := hbal (k + 1) (by simpa using Nat.succ_le_succ hk)
          simp only [List.take_succ_cons, detectedCalls, detectedReturns,
            List.countP_cons, hcl, hrl, eq_self_iff_true, if_true,
          Bool.false_eq_true, if_false] at hb ⊢
          rw [hstep]
          omega
      · have hr' : is_return ln = false := by
          cases h : is_return ln with
          | false => rfl
          | true => exact absurd h hr
        have hrl : isReturnLine ln = false := by simp [isReturnLine, hr']
        have hstep : (treeStep symbols .spike fs n ln s).stack.length =
            s.stack.length :=
          treeStep_neither symbols .spike fs n ln s pc hpc hc' hr'
        simp only [treeRun]
        rw [ih (n + 1) (treeStep symbols .spike fs n ln s) hresr hannr ?_]
        · simp only [detectedCalls, detectedReturns, List.countP_cons, hcl, hrl, eq_self_iff_true, if_true,
          Bool.false_eq_true, if_false]
          rw [hstep]
          omega
        · intro k hk
          have hb := hbal (k + 1) (by simpa using Nat.succ_le_succ hk)
          simp only [List.take_succ_cons, detectedCalls, detectedReturns,
            List.countP_cons, hcl, hrl, eq_self_iff_true, if_true,
          Bool.false_eq_true, if_false] at hb ⊢
          rw [hstep]
          omega

lemma pendingPhase_key_inv (fs : String → Option Nat)
    (fn : Option (String × Nat)) (s : TreeState) (h : KeyInv s) :
    KeyInv (pendingPhase fs fn s) := by
  obtain ⟨h1, h2⟩ := h
  rcases s with ⟨stk, tr, se, ca⟩
  cases stk with
  | nil => exact ⟨h1, h2⟩
  | cons top rest =>
    cases fn with
    | none => rw [pendingPhase_fn_none]; exact ⟨h1, h2⟩
    | some p =>
      obtain ⟨base, off⟩ := p
      simp only [pendingPhase]
      by_cases hp : top.pending
      · simp only [hp, if_true]
        by_cases hk : ((rest.length, base, top.line / 100) : CallKey) ∈ se
        · simp only [hk, if_true]
          exact ⟨h1, h2⟩
        · simp only [hk, if_false]
          constructor
          · simp only [List.map_append, List.map_cons, List.map_nil]
            rw [List.nodup_append]
            refine ⟨h1, by simp, ?_⟩
            intro x hx hx'
            simp only [List.mem_singleton] at hx'
            obtain ⟨nd, hnd, hxeq⟩ := List.mem_map.mp hx
            apply hk
            have hxse := hxeq ▸ h2 nd hnd
            have hx2 : x = ((rest.length, base, top.line / 100) : CallKey) := hx'
            exact hx2 ▸ hxse
          · intro nd hnd
            rcases List.mem_append.mp hnd with hmem | hmem
            · exact List.mem_cons_of_mem _ (h2 nd hmem)
            · simp only [List.mem_singleton] at hmem
              subst hmem
              exact List.mem_cons_self _ _
      · simp only [Bool.not_eq_true] at hp
        simp only [hp, Bool.false_eq_true, if_false]
        exact ⟨h1, h2⟩

lemma callPhase_key_inv (fmt : TraceFormat) (fs : String → Option Nat)
    (fn : Option (String × Nat)) (n pc : Nat) (ln : Line) (s : TreeState)
    (h : KeyInv s) : KeyInv (callPhase fmt fs fn n pc ln s) := by
  obtain ⟨h1, h2⟩ := h
  cases fn with
  | none => exact ⟨h1, h2⟩
  | some p =>
    by_cases hc : is_call ln
    · simp only [callPhase, hc, if_true]
      rcases htg : ln.target with _ | tgt
      · by_cases hfmt : fmt = TraceFormat.spike
        · simp only [hfmt, eq_self_iff_true, if_true]
          exact ⟨h1, h2⟩
        · simp only [hfmt, if_false]
          exact ⟨h1, h2⟩
      · by_cases hk : ((s.stack.length, tgt, n / 100) : CallKey) ∈ s.seen
        · simp only [hk, if_true]
          exact ⟨h1, h2⟩
        · simp only [hk, if_false]
          constructor
          · simp only [List.map_append, List.map_cons, List.map_nil]
            rw [List.nodup_append]
            refine ⟨h1, by simp, ?_⟩
            intro x hx hx'
            simp only [List.mem_singleton] at hx'
            obtain ⟨nd, hnd, hxeq⟩ := List.mem_map.mp hx
            apply hk
            have hxse := hxeq ▸ h2 nd hnd
            have hx2 : x = ((s.stack.length, tgt, n / 100) : CallKey) := hx'
            exact hx2 ▸ hxse
          · intro nd hnd
            rcases List.mem_append.mp hnd with hmem | hmem
            · exact List.mem_cons_of_mem _ (h2 nd hmem)
            · simp only [List.mem_singleton] at hmem
              subst hmem
              exact List.mem_cons_self _ _
    · simp only [Bool.not_eq_true] at hc
      simp only [callPhase, hc, Bool.false_eq_true, if_false]
      by_cases hr : is_return ln
      · simp only [hr, if_true]
        cases s.stack with
        | nil => exact ⟨h1, h2⟩
        | cons f t => exact ⟨h1, h2⟩
      · simp only [Bool.not_eq_true] at hr
        simp only [hr, Bool.false_eq_true, if_false]
        exact ⟨h1, h2⟩

lemma treeStep_key_inv (symbols : List Symbol) (fmt : TraceFormat)
    (fs : String → Option Nat) (n : Nat) (ln : Line) (s : TreeState)
    (h : KeyInv s) : KeyInv (treeStep symbols fmt fs n ln s) := by
  cases hpc : ln.pc with
  | none => rw [treeStep_no_pc symbols fmt fs n ln s hpc]; exact h
  | some pc =>
    simp only [treeStep, hpc]
    exact callPhase_key_inv fmt fs _ n pc ln _
      (pendingPhase_key_inv fs _ s h)

lemma treeRun_key_inv (symbols : List Symbol) (fmt : TraceFormat)
    (fs : String → Option Nat) :
    ∀ (lines : List Line) (n : Nat) (s : TreeState),
      KeyInv s → KeyInv (treeRun symbols fmt fs lines n s) := by
  intro lines
  induction lines with
  | nil => intro n s h; exact h
  | cons ln rest ih =>
    intro n s h
    exact ih (n + 1) _ (treeStep_key_inv symbols fmt fs n ln s h)

lemma callPhase_seen_mono (fmt : TraceFormat) (fs : String → Option Nat)
    (fn : Option (String × Nat)) (n pc : Nat) (ln : Line) (s : TreeState)
    (k : CallKey) (h : k ∈ s.seen) : k ∈ (callPhase fmt fs fn n pc ln s).seen := by
  cases fn with
  | none => exact h
  | some p =>
    by_cases hc : is_call ln
    · simp only [callPhase, hc, if_true]
      rcases htg : ln.target with _ | tgt
      · by_cases hfmt : fmt = TraceFormat.spike
        · simp only [hfmt, eq_self_iff_true, if_true]; exact h
        · simp only [hfmt, if_false]; exact h
      · by_cases hk : ((s.stack.length, tgt, n / 100) : CallKey) ∈ s.seen
        · simp only [hk, if_true]; exact h
        · simp only [hk, if_false]
          exact List.mem_cons_of_mem _ h
    · simp only [Bool.not_eq_true] at hc
      simp only [callPhase, hc, Bool.false_eq_true, if_false]
      by_cases hr : is_return ln
      · simp only [hr, if_true]
        cases s.stack with
        | nil => exact h
        | cons f t => exact h
      · simp only [Bool.not_eq_true] at hr
        simp only [hr, Bool.false_eq_true, if_false]
        exact h

lemma treeStep_dup_no_push (symbols : List Symbol) (fmt : TraceFormat)
    (fs : String → Option Nat) (n : Nat) (ln : Line) (s : TreeState)
    (pc : Nat) (tgt : String)
    (hpc : ln.pc = some pc) (hc : is_call ln = true)
    (htg : ln.target = some tgt)
    (hk : ((s.stack.length, tgt, n / 100) : CallKey) ∈ s.seen) :
    (treeStep symbols fmt fs n ln s).stack.length = s.stack.length := by
  cases hfn : addr_to_symbol pc symbols with
  | none => rw [treeStep_unresolved symbols fmt fs n ln s pc hpc hfn]
  | some p =>
    obtain ⟨b, o⟩ := p
    simp only [treeStep, hpc, hfn, callPhase, hc, if_true, htg]
    have hlen := pendingPhase_stack_length fs (some (b, o)) s
    have hk' : (((pendingPhase fs (some (b, o)) s).stack.length, tgt, n / 100)
        : CallKey) ∈ (pendingPhase fs (some (b, o)) s).seen := by
      rw [hlen]
      exact pendingPhase_seen_mono fs (some (b, o)) s _ hk
    rw [if_pos hk']
    exact hlen

/-! ## Claim theorems: call-tree reconstructor -/

/-- C2 counterexample: one spike-format record decoded as a call whose pc
resolves to no symbol (empty symbol table). C = 1 and Rt = 0, but the final
stack depth is 0, not C − Rt = 1: a call at an unresolvable pc pushes
nothing, so the claimed final-depth equality fails on the code. -/
theorem C2_counterexample :
    detectedCalls [callLn] = 1 ∧ detectedReturns [callLn] = 0 ∧
    (parse_rtl_trace_tree [] .spike fsNone [callLn]).stack.length = 0 := by
  refine ⟨by decide, by decide, by decide⟩

/-- C2 amended: (1) the call-stack depth never exceeds the number C of
detected calls, at any prefix of the trace; (2) a return detected while the
stack is empty is a no-op (the state is unchanged — never a crash);
(3) the final depth equals C − Rt (the clamp being vacuous) provided the
trace is spike-format, every record's pc resolves, records carry no
annotations, and no prefix has more detected returns than detected calls —
without those provisos a detected call need not push (unresolvable pc,
rtl-format call without a target, deduplicated annotated call), so the
equality can fail. -/
theorem C2_stack_balance :
    (∀ (symbols : List Symbol) (fmt : TraceFormat) (fs : String → Option Nat)
       (lines : List Line) (k : Nat),
      (treeRun symbols fmt fs (lines.take k) 1 ⟨[], [], [], []⟩).stack.length ≤
        detectedCalls lines) ∧
    (∀ (symbols : List Symbol) (fmt : TraceFormat) (fs : String → Option Nat)
       (n : Nat) (ln : Line) (s : TreeState),
      s.stack = [] → is_return ln = true → is_call ln = false →
      treeStep symbols fmt fs n ln s = s) ∧
    (∀ (symbols : List Symbol) (fs : String → Option Nat) (lines : List Line),
      (∀ ln ∈ lines, resolves symbols ln = true) →
      (∀ ln ∈ lines, annotFree ln = true) →
      (∀ k, k ≤ lines.length →
        detectedReturns (lines.take k) ≤ detectedCalls (lines.take k)) →
      (parse_rtl_trace_tree symbols .spike fs lines).stack.length =
        detectedCalls lines - detectedReturns lines) := by
  refine ⟨?_, ?_, ?_⟩
  · intro symbols fmt fs lines k
    calc (treeRun symbols fmt fs (lines.take k) 1 ⟨[], [], [], []⟩).stack.length
        ≤ (⟨[], [], [], []⟩ : TreeState).stack.length +
            detectedCalls (lines.take k) :=
          treeRun_stack_le symbols fmt fs (lines.take k) 1 _
      _ ≤ detectedCalls lines := by
          simp only [List.length_nil]
          have : detectedCalls (lines.take k) ≤ detectedCalls lines :=
            List.Sublist.countP_le isCallLine (List.take_sublist k lines)
          omega
  · intro symbols fmt fs n ln s hstk hr hc
    cases hpc : ln.pc with
    | none => exact treeStep_no_pc symbols fmt fs n ln s hpc
    | some pc =>
      cases hfn : addr_to_symbol pc symbols with
      | none => exact treeStep_unresolved symbols fmt fs n ln s pc hpc hfn
      | some p =>
        obtain ⟨b, o⟩ := p
        simp only [treeStep, hpc, hfn, callPhase, hc, Bool.false_eq_true,
          if_false, hr, if_true]
        have hpp : pendingPhase fs (some (b, o)) s = s := by
          rcases s with ⟨stk, tr, se, ca⟩
          simp only [TreeState.mk.injEq] at hstk ⊢
          subst hstk
          rfl
        rw [hpp, hstk]
  · intro symbols fs lines hres hann hbal
    have h := treeRun_balance symbols fs lines 1 ⟨[], [], [], []⟩ hres hann
      (by simpa using hbal)
    simpa [parse_rtl_trace_tree] using h

/-- C2 witness: the two-record spike trace call-then-return over a
one-symbol table, through the third part of `C2_stack_balance`: final
depth = 1 − 1 = 0. -/
theorem C2_witness :
    (parse_rtl_trace_tree symsFoo .spike fsNone [callLn, retLn]).stack.length =
      detectedCalls [callLn, retLn] - detectedReturns [callLn, retLn] :=
  C2_stack_balance.2.2 symsFoo fsNone [callLn, retLn]
    (by decide) (by decide) (by decide)

/-- C3 counterexample: an annotated call (`<foo>` target) is followed by a
return and then the identical annotated call inside the same hundred-line
window at the same depth. The third record is a detected call at a
resolvable pc, but its dedup key is already in `seen_calls`, and the code
then skips the push as well: the state after the third record equals the
state after two records, with an empty stack — so dedup suppression *does*
suppress the push, contradicting the claim. -/
theorem C3_counterexample :
    is_call annCallLn = true ∧
    (addr_to_symbol 0x1000 symsMain).isSome = true ∧
    parse_rtl_trace_tree symsMain .rtl fsNone [annCallLn, retLn2, annCallLn] =
      parse_rtl_trace_tree symsMain .rtl fsNone [annCallLn, retLn2] ∧
    (parse_rtl_trace_tree symsMain .rtl fsNone
      [annCallLn, retLn2, annCallLn]).stack = [] := by
  refine ⟨by decide, by decide, by decide, by decide⟩

/-- C3 amended: (1) a call-tree node is emitted at most once per unique
(depth, target, line/100) key — the emitted keys are pairwise distinct for
every input; (2) a deferred (pending-path) call at a resolvable pc always
pushes a frame, untouched by deduplication; but (3) an annotation-target
call whose key is already in `seen_calls` pushes nothing: suppression of
the node also suppresses the push. -/
theorem C3_dedup :
    (∀ (symbols : List Symbol) (fmt : TraceFormat) (fs : String → Option Nat)
       (lines : List Line),
      ((parse_rtl_trace_tree symbols fmt fs lines).tree.map nodeKey).Nodup) ∧
    (∀ (symbols : List Symbol) (fs : String → Option Nat) (n : Nat)
       (ln : Line) (s : TreeState) (pc : Nat),
      ln.pc = some pc → (addr_to_symbol pc symbols).isSome = true →
      is_call ln = true → ln.target = none →
      (treeStep symbols .spike fs n ln s).stack.length =
        s.stack.length + 1) ∧
    (∀ (symbols : List Symbol) (fmt : TraceFormat) (fs : String → Option Nat)
       (n : Nat) (ln : Line) (s : TreeState) (pc : Nat) (tgt : String),
      ln.pc = some pc → is_call ln = true → ln.target = some tgt →
      ((s.stack.length, tgt, n / 100) : CallKey) ∈ s.seen →
      (treeStep symbols fmt fs n ln s).stack.length = s.stack.length) := by
  refine ⟨?_, ?_, ?_⟩
  · intro symbols fmt fs lines
    exact (treeRun_key_inv symbols fmt fs lines 1 ⟨[], [], [], []⟩
      ⟨List.nodup_nil, by simp⟩).1
  · intro symbols fs n ln s pc hpc hfn hc htg
    obtain ⟨⟨b, o⟩, hbo⟩ := Option.isSome_iff_exists.mp hfn
    exact treeStep_call_push symbols fs n ln s pc b o hpc hbo hc htg
  · intro symbols fmt fs n ln s pc tgt hpc hc htg hk
    exact treeStep_dup_no_push symbols fmt fs n ln s pc tgt hpc hc htg hk

/-- C3 witness: the three parts of `C3_dedup` at concrete inputs — key
uniqueness on the two-record annotated trace, a pending push on the empty
state, and the suppressed push at the duplicated key of the
counterexample's third record. -/
theorem C3_witness :
    ((parse_rtl_trace_tree symsMain .rtl fsNone
      [annCallLn, retLn2]).tree.map nodeKey).Nodup ∧
    (treeStep symsFoo .spike fsNone 1 callLn ⟨[], [], [], []⟩).stack.length =
      (⟨[], [], [], []⟩ : TreeState).stack.length + 1 ∧
    (treeStep symsMain .rtl fsNone 3 annCallLn
        (parse_rtl_trace_tree symsMain .rtl fsNone [annCallLn, retLn2])).stack.length =
      (parse_rtl_trace_tree symsMain .rtl fsNone [annCallLn, retLn2]).stack.length :=
  ⟨C3_dedup.1 symsMain .rtl fsNone [annCallLn, retLn2],
   C3_dedup.2.1 symsFoo fsNone 1 callLn ⟨[], [], [], []⟩ 0x2000 rfl
     (by decide) (by decide) rfl,
   C3_dedup.2.2 symsMain .rtl fsNone 3 annCallLn _ 0x1000 "foo" rfl
     (by decide) rfl (by decide)⟩

/-- C8 counterexample: a spike-format call at a resolvable pc pushes a
pending frame; the trace ends with no subsequent record, so nothing can
resolve the frame — and the emitted tree is empty: no node (labelled
unresolved or otherwise) is ever emitted for the pending frame,
contradicting the claim. -/
theorem C8_counterexample :
    (parse_rtl_trace_tree symsFoo .spike fsNone [callLn]).tree = [] ∧
    (parse_rtl_trace_tree symsFoo .spike fsNone [callLn]).stack =
      [⟨none, 0x2000, 1, none, true⟩] := by
  refine ⟨by decide, by decide⟩

/-- C8 amended: a pending frame whose following records never resolve
against the symbol table is *never* emitted: processing any suffix of
unresolvable records leaves both the emitted tree and the stack (with the
unnamed pending frame on top) completely unchanged, and no end-of-trace
emission exists. -/
theorem C8_unresolved_pending (symbols : List Symbol) (fmt : TraceFormat)
    (fs : String → Option Nat) (rest : List Line) (n : Nat) (s : TreeState)
    (top : Frame) (stk : List Frame)
    (hstk : s.stack = top :: stk) (hpend : top.pending = true)
    (hname : top.name = none)
    (hunres : ∀ ln ∈ rest, resolves symbols ln = false) :
    (treeRun symbols fmt fs rest n s).tree = s.tree ∧
    (treeRun symbols fmt fs rest n s).stack = top :: stk := by
  rw [treeRun_not_resolves symbols fmt fs rest n s hunres]
  exact ⟨rfl, hstk⟩

/-- C8 witness: the counterexample's pending frame followed by one record
whose pc (0x10) resolves to nothing, through `C8_unresolved_pending`: tree
and stack unchanged, frame still pending and unnamed. -/
theorem C8_witness :
    (treeRun symsFoo .spike fsNone [lowLn] 2
      (parse_rtl_trace_tree symsFoo .spike fsNone [callLn])).tree =
      (parse_rtl_trace_tree symsFoo .spike fsNone [callLn]).tree ∧
    (treeRun symsFoo .spike fsNone [lowLn] 2
      (parse_rtl_trace_tree symsFoo .spike fsNone [callLn])).stack =
      [⟨none, 0x2000, 1, none, true⟩] :=
  C8_unresolved_pending symsFoo .spike fsNone [lowLn] 2 _
    ⟨none, 0x2000, 1, none, true⟩ [] (by decide) rfl rfl (by decide)

/-- C9: for a record carrying a raw opcode and no annotation text at all,
the reconstructor classifies it as a call iff the low 7 bits are 0x6F (JAL)
or 0x67 (JALR) and the destination-register field (bits 7..11) is 1, and
as a return iff the low 7 bits are 0x67, the destination-register field
is 0, and the base-register field (bits 15..19) is 1. -/
theorem C9_opcode_decode (ln : Line) (w : Nat) (hw : ln.instr = some w)
    (h1 : ln.x1Write = false) (h2 : ln.jalComment = false)
    (h3 : ln.jalrComment = false) (h4 : ln.retComment = false)
    (h5 : ln.x0Text = false) :
    (is_call ln = true ↔
      ((w % 128 = 0x6F ∨ w % 128 = 0x67) ∧ w / 128 % 32 = 1)) ∧
    (is_return ln = true ↔
      (w % 128 = 0x67 ∧ w / 128 % 32 = 0 ∧ w / 32768 % 32 = 1)) := by
  constructor
  · simp only [is_call, h1, h2, h3, Bool.false_eq_true, false_and, and_false,
      if_false, hw]
    exact decide_eq_true_iff
  · simp only [is_return, h3, h4, h5, Bool.false_eq_true, false_and,
      and_false, if_false, hw]
    exact decide_eq_true_iff

/-- C9 witness: the annotation-free `jal x1` record (opcode 0x000000EF),
through `C9_opcode_decode`. -/
theorem C9_witness :
    (is_call callLn = true ↔
      ((0xEF % 128 = 0x6F ∨ 0xEF % 128 = 0x67) ∧ 0xEF / 128 % 32 = 1)) ∧
    (is_return callLn = true ↔
      (0xEF % 128 = 0x67 ∧ 0xEF / 128 % 32 = 0 ∧ 0xEF / 32768 % 32 = 1)) :=
  C9_opcode_decode callLn 0xEF rfl rfl rfl rfl rfl rfl

/-- C10: a record whose pc parses but resolves to no symbol performs no
state change at all — the whole reconstructor step is the identity: no
push for a detected call, no pop for a detected return, and the pending
frame on top (whose resolution is the only thing attempted) is left
untouched. -/
theorem C10_unresolved_skip (symbols : List Symbol) (fmt : TraceFormat)
    (fs : String → Option Nat) (n : Nat) (ln : Line) (s : TreeState)
    (pc : Nat) (hpc : ln.pc = some pc)
    (hres : addr_to_symbol pc symbols = none) :
    treeStep symbols fmt fs n ln s = s :=
  treeStep_unresolved symbols fmt fs n ln s pc hpc hres

/-- C10 witness: the unresolvable-pc call record against the one-symbol
table, through `C10_unresolved_skip`: the step is the identity on the
initial state. -/
theorem C10_witness :
    treeStep symsFoo .spike fsNone 1 lowLn ⟨[], [], [], []⟩ =
      (⟨[], [], [], []⟩ : TreeState) :=
  C10_unresolved_skip symsFoo .spike fsNone 1 lowLn ⟨[], [], [], []⟩ 0x10
    rfl (by decide)

end Kcore
